import Mathlib

/-!
Verification of the Memory-Leak-Detector core pipeline.

This file shallowly embeds the two-stage analysis pipeline of the
repository: the line-oriented, regex-driven event extractor
(`ASTParser.parseC` and friends, from the unnamed source file holding
class `ASTParser`) and the stateful allocation tracker
(`MemoryAnalyzer` in `src/memoryAnalyzer.js`), together with the size
estimator (`calculateSizeFromAST`, `getTypeSize`) and the constants of
`src/config.js`.

JavaScript strings are modelled as `List Char` / `String`, JS numbers as
`Int` (all arithmetic here is exact integer arithmetic), JS regular
expressions by a small backtracking matcher faithful to the ECMAScript
semantics used by the source (greedy quantifiers, ordered alternation,
leftmost match, numbered capture groups), and the insertion-ordered JS
`Map` by an association list.
-/

namespace MLD

/-! ### Character classes and string helpers -/

/-- ECMAScript `\w`: `[A-Za-z0-9_]`. -/
def isWordChar (c : Char) : Bool := c.isAlpha || c.isDigit || c = '_'

/-- ECMAScript `\s` restricted to the ASCII whitespace characters
(space, tab, newline, carriage return, vertical tab, form feed);
the analyzed source texts contain no exotic Unicode whitespace. -/
def isSpaceChar (c : Char) : Bool :=
  c = ' ' || c = '\t' || c = '\n' || c = '\r' || c = '\x0b' || c = '\x0c'

/-- ECMAScript `\d`. -/
def isDigitChar (c : Char) : Bool := c.isDigit

/-- JS `String.prototype.trim` (both ends). -/
def trimChars (s : List Char) : List Char :=
  ((s.dropWhile isSpaceChar).reverse.dropWhile isSpaceChar).reverse

/-- Does `pat` begin `s`? -/
def startsWithS : List Char → List Char → Bool
  | _, [] => true
  | [], _ :: _ => false
  | c :: s, p :: ps => c = p && startsWithS s ps

/-- JS `String.prototype.includes`. -/
def hasSub (s pat : List Char) : Bool :=
  match s with
  | [] => pat.isEmpty
  | _ :: rest => startsWithS s pat || hasSub rest pat

/-- Number of start positions at which `pat` occurs in `s` (used only to
state the per-occurrence claim C9). -/
def countSub (s pat : List Char) : Nat :=
  match s with
  | [] => if pat.isEmpty then 1 else 0
  | _ :: rest => (if startsWithS s pat then 1 else 0) + countSub rest pat

/-- JS `String.prototype.endsWith` with a single-character argument. -/
def endsWithC (s : List Char) (c : Char) : Bool := s.getLast? == some c

/-- JS `String.prototype.split('\n')`. -/
def splitLinesAux : List Char → List Char → List (List Char)
  | [], acc => [acc.reverse]
  | '\n' :: rest, acc => acc.reverse :: splitLinesAux rest []
  | c :: rest, acc => splitLinesAux rest (c :: acc)

def splitLines (s : List Char) : List (List Char) :=
  splitLinesAux s []

/-- Inverse of `splitLines`: re-join with newlines. -/
def joinLines : List (List Char) → List Char
  | [] => []
  | [l] => l
  | l :: ls => l ++ '\n' :: joinLines ls

/-- Value of a string of decimal digits. -/
def natOfDigits (ds : List Char) : Nat :=
  ds.foldl (fun n c => n * 10 + (c.toNat - '0'.toNat)) 0

/-- JS `parseInt(match) || 1` where `match` is a `\d+` capture:
`parseInt` on pure digits is exact, and `|| 1` replaces the falsy `0`. -/
def natOr1 (ds : List Char) : Int :=
  let n := natOfDigits ds
  if n = 0 then 1 else (n : Int)

/-- JS `parseInt` on an arbitrary string, as used on the raw argument
text in the non-C size branches: skip leading whitespace, optional
sign, then a maximal run of decimal digits; `none` models `NaN`. -/
def parseIntJS (s : List Char) : Option Int :=
  let t := s.dropWhile isSpaceChar
  let core : List Char → Option Int := fun u =>
    let ds := u.takeWhile isDigitChar
    if ds.isEmpty then none else some (natOfDigits ds : Int)
  match t with
  | '-' :: u => (core u).map (fun n => -n)
  | '+' :: u => core u
  | u => core u

/-! ### A small backtracking regex matcher

Each JS regex literal of the source is transliterated into a `RE`
value below.  The matcher implements the ECMAScript behaviours the
source relies on: alternatives tried left to right, greedy `*`/`+`/`?`
with backtracking, numbered capture groups (an unexercised group is
absent, modelling `undefined`), `\b` word boundaries, and
leftmost-match search (`String.prototype.match` without the `g` flag). -/

inductive RE where
  | eps : RE
  | cls : (Char → Bool) → RE
  | seq : RE → RE → RE
  | alt : RE → RE → RE
  | star : RE → RE
  | opt : RE → RE
  | grp : Nat → RE → RE
  | wordB : RE

abbrev Caps := List (Nat × List Char)

def capsLookup (caps : Caps) (i : Nat) : Option (List Char) :=
  match caps with
  | [] => none
  | (j, v) :: rest => if j = i then some v else capsLookup rest i

/-- Backtracking matcher in continuation-passing style.  `prev` is the
character just before the current position (for `\b`).  `fuel` bounds
the recursion depth; `reFuel` below is always sufficient for the
patterns of this file.  A `star` iteration must consume input, which
agrees with JS on these patterns (no starred sub-pattern here matches
the empty string). -/
def mrun (fuel : Nat) (re : RE) (prev : Option Char) (s : List Char) (caps : Caps)
    (k : Option Char → List Char → Caps → Option Caps) : Option Caps :=
  match fuel with
  | 0 => none
  | fuel + 1 =>
    match re with
    | .eps => k prev s caps
    | .cls p =>
      match s with
      | [] => none
      | c :: rest => if p c then k (some c) rest caps else none
    | .seq a b => mrun fuel a prev s caps (fun p' s' c' => mrun fuel b p' s' c' k)
    | .alt a b =>
      match mrun fuel a prev s caps k with
      | some r => some r
      | none => mrun fuel b prev s caps k
    | .star a =>
      match mrun fuel a prev s caps (fun p' s' c' =>
          if s'.length < s.length then mrun fuel (.star a) p' s' c' k else none) with
      | some r => some r
      | none => k prev s caps
    | .opt a =>
      match mrun fuel a prev s caps k with
      | some r => some r
      | none => k prev s caps
    | .grp i a =>
      mrun fuel a prev s caps (fun p' s' c' =>
        k p' s' ((i, s.take (s.length - s'.length)) :: c'))
    | .wordB =>
      let wl := match prev with | some c => isWordChar c | none => false
      let wr := match s with | c :: _ => isWordChar c | [] => false
      if wl != wr then k prev s caps else none

def reFuel (s : List Char) : Nat := 128 * (s.length + 16)

/-- Try to match `re` at the start of `s`. -/
def reMatchAt (re : RE) (prev : Option Char) (s : List Char) : Option Caps :=
  mrun (reFuel s) re prev s [] (fun _ _ caps => some caps)

/-- Leftmost-match search, JS `String.prototype.match` without `g`. -/
def reSearchAux (re : RE) (prev : Option Char) (s : List Char) : Option Caps :=
  match reMatchAt re prev s with
  | some caps => some caps
  | none =>
    match s with
    | [] => none
    | c :: rest => reSearchAux re (some c) rest

def reSearch (re : RE) (s : List Char) : Option Caps :=
  reSearchAux re none s

def reTest (re : RE) (s : List Char) : Bool :=
  (reSearch re s).isSome

/-- `match[i]` of a successful JS match (`none` when the group did not
participate, modelling `undefined`). -/
def groupStr (caps : Caps) (i : Nat) : String :=
  ((capsLookup caps i).getD []).asString

/-! ### The concrete regex literals of the source -/

def reChar (c : Char) : RE := .cls (· == c)

def notCl (c : Char) : RE := .cls (· != c)

def reStrL : List Char → RE
  | [] => .eps
  | [c] => reChar c
  | c :: rest => .seq (reChar c) (reStrL rest)

def reStr (s : String) : RE := reStrL s.data

def reSeqL : List RE → RE
  | [] => .eps
  | [r] => r
  | r :: rest => .seq r (reSeqL rest)

def reAltL : List RE → RE
  | [] => .eps
  | [r] => r
  | r :: rest => .alt r (reAltL rest)

/-- `\s*` -/
def wS : RE := .star (.cls isSpaceChar)
/-- `\s+` -/
def wS1 : RE := .seq (.cls isSpaceChar) wS
/-- `\w+` -/
def wW1 : RE := .seq (.cls isWordChar) (.star (.cls isWordChar))
/-- `\d+` -/
def dD1 : RE := .seq (.cls isDigitChar) (.star (.cls isDigitChar))
/-- `[^x]+` -/
def plusNot (c : Char) : RE := .seq (notCl c) (.star (notCl c))
/-- `[^x]*` -/
def starNot (c : Char) : RE := .star (notCl c)

/-- `(malloc|calloc|realloc)` as capture group 2. -/
def allocFn : RE := .grp 2 (reAltL [reStr "malloc", reStr "calloc", reStr "realloc"])

/-- `\w+\s+\*\s*(\w+)\s*=\s*(malloc|calloc|realloc)\s*\(\s*([^)]+)\s*\)` -/
def allocPat1 : RE := reSeqL [wW1, wS1, reChar '*', wS, .grp 1 wW1, wS, reChar '=', wS,
  allocFn, wS, reChar '(', wS, .grp 3 (plusNot ')'), wS, reChar ')']

/-- `\w+\*\s*(\w+)\s*=\s*(malloc|calloc|realloc)\s*\(\s*([^)]+)\s*\)` -/
def allocPat2 : RE := reSeqL [wW1, reChar '*', wS, .grp 1 wW1, wS, reChar '=', wS,
  allocFn, wS, reChar '(', wS, .grp 3 (plusNot ')'), wS, reChar ')']

/-- `(\w+)\s*=\s*\([^)]*\)\s*(malloc|calloc|realloc)\s*\(\s*([^)]+)\s*\)` -/
def allocPat3 : RE := reSeqL [.grp 1 wW1, wS, reChar '=', wS, reChar '(', starNot ')',
  reChar ')', wS, allocFn, wS, reChar '(', wS, .grp 3 (plusNot ')'), wS, reChar ')']

/-- `(\w+)\s*=\s*(malloc|calloc|realloc)\s*\(\s*([^)]+)\s*\)` -/
def allocPat4 : RE := reSeqL [.grp 1 wW1, wS, reChar '=', wS,
  allocFn, wS, reChar '(', wS, .grp 3 (plusNot ')'), wS, reChar ')']

def mallocPats : List RE := [allocPat1, allocPat2, allocPat3, allocPat4]

/-- `new\s+\w+` -/
def newHead : RE := reSeqL [reStr "new", wS1, wW1]

/-- `\w+\s+\*\s*(\w+)\s*=\s*new\s+\w+\s*\(\s*([^)]*)\s*\)` -/
def cppPat1 : RE := reSeqL [wW1, wS1, reChar '*', wS, .grp 1 wW1, wS, reChar '=', wS,
  newHead, wS, reChar '(', wS, .grp 2 (starNot ')'), wS, reChar ')']

/-- `\w+\*\s*(\w+)\s*=\s*new\s+\w+\s*\(\s*([^)]*)\s*\)` -/
def cppPat2 : RE := reSeqL [wW1, reChar '*', wS, .grp 1 wW1, wS, reChar '=', wS,
  newHead, wS, reChar '(', wS, .grp 2 (starNot ')'), wS, reChar ')']

/-- `\w+\s+\*\s*(\w+)\s*=\s*new\s+\w+` -/
def cppPat3 : RE := reSeqL [wW1, wS1, reChar '*', wS, .grp 1 wW1, wS, reChar '=', wS, newHead]

/-- `\w+\*\s*(\w+)\s*=\s*new\s+\w+` -/
def cppPat4 : RE := reSeqL [wW1, reChar '*', wS, .grp 1 wW1, wS, reChar '=', wS, newHead]

/-- `\w+\s+\*\s*(\w+)\s*=\s*new\s+\w+\s*\[\s*([^\]]+)\s*\]` -/
def cppPat5 : RE := reSeqL [wW1, wS1, reChar '*', wS, .grp 1 wW1, wS, reChar '=', wS,
  newHead, wS, reChar '[', wS, .grp 2 (plusNot ']'), wS, reChar ']']

/-- `\w+\*\s*(\w+)\s*=\s*new\s+\w+\s*\[\s*([^\]]+)\s*\]` -/
def cppPat6 : RE := reSeqL [wW1, reChar '*', wS, .grp 1 wW1, wS, reChar '=', wS,
  newHead, wS, reChar '[', wS, .grp 2 (plusNot ']'), wS, reChar ']']

/-- `(\w+)\s*=\s*new\s+\w+\s*\(\s*([^)]*)\s*\)` -/
def cppPat7 : RE := reSeqL [.grp 1 wW1, wS, reChar '=', wS,
  newHead, wS, reChar '(', wS, .grp 2 (starNot ')'), wS, reChar ')']

/-- `(\w+)\s*=\s*new\s+\w+` -/
def cppPat8 : RE := reSeqL [.grp 1 wW1, wS, reChar '=', wS, newHead]

/-- `(\w+)\s*=\s*new\s+\w+\s*\[\s*([^\]]+)\s*\]` -/
def cppPat9 : RE := reSeqL [.grp 1 wW1, wS, reChar '=', wS,
  newHead, wS, reChar '[', wS, .grp 2 (plusNot ']'), wS, reChar ']']

def cppPats : List RE :=
  [cppPat1, cppPat2, cppPat3, cppPat4, cppPat5, cppPat6, cppPat7, cppPat8, cppPat9]

/-- `free\s*\(\s*(\w+)\s*\)` -/
def freePat : RE := reSeqL [reStr "free", wS, reChar '(', wS, .grp 1 wW1, wS, reChar ')']

/-- `delete\s*\[\s*\]\s*(?:\(\s*)?(\w+)(?:\s*\))?` -/
def delArrPat : RE := reSeqL [reStr "delete", wS, reChar '[', wS, reChar ']', wS,
  .opt (reSeqL [reChar '(', wS]), .grp 1 wW1, .opt (reSeqL [wS, reChar ')'])]

/-- `delete\s+(?:\(\s*)?(\w+)(?:\s*\))?` -/
def delPat : RE := reSeqL [reStr "delete", wS1,
  .opt (reSeqL [reChar '(', wS]), .grp 1 wW1, .opt (reSeqL [wS, reChar ')'])]

/-- `(\w+)\s*\([^)]*\)\s*\{?` (function-head heuristic of `parseC`). -/
def funcPat : RE := reSeqL [.grp 1 wW1, wS, reChar '(', starNot ')', reChar ')', wS,
  .opt (reChar '\x7b')]

/-- `\b(if|while|for|switch)\s*\(` -/
def ctrlPat : RE := reSeqL [.wordB,
  .grp 1 (reAltL [reStr "if", reStr "while", reStr "for", reStr "switch"]), wS, reChar '(']

/-- `\b(for|while|do)\s*\(` -/
def loopPat : RE := reSeqL [.wordB,
  .grp 1 (reAltL [reStr "for", reStr "while", reStr "do"]), wS, reChar '(']

/-- `(\d+)\s*,\s*(\d+)` (calloc argument pair). -/
def callocPair : RE := reSeqL [.grp 1 dD1, wS, reChar ',', wS, .grp 2 dD1]

/-- `(\d+)\s*\*\s*sizeof\s*\([^)]+\)` -/
def sizeofPat1 : RE := reSeqL [.grp 1 dD1, wS, reChar '*', wS, reStr "sizeof", wS,
  reChar '(', plusNot ')', reChar ')']

/-- `sizeof\s*\([^)]+\)\s*\*\s*(\d+)` -/
def sizeofPat2 : RE := reSeqL [reStr "sizeof", wS, reChar '(', plusNot ')', reChar ')',
  wS, reChar '*', wS, .grp 1 dD1]

/-- `(\d+)` -/
def numPat : RE := .grp 1 dD1

/-- `sizeof\s*\(([^)]+)\)` (type extraction in `getTypeSize`). -/
def typeSizeofCap : RE := reSeqL [reStr "sizeof", wS, reChar '(', .grp 1 (plusNot ')'),
  reChar ')']

/-! ### `ASTParser.removeComments` -/

/-- Truncate `s` at the first occurrence of `pat` (used for `//` line
comments: `code.replace(/\/\/.*$/gm, '')` truncates every line at its
first `//`). -/
def takeUntilSub (s pat : List Char) : List Char :=
  match s with
  | [] => []
  | c :: rest => if startsWithS s pat then [] else c :: takeUntilSub rest pat

def removeLineComments (s : List Char) : List Char :=
  joinLines ((splitLines s).map (fun l => takeUntilSub l ('/' :: ['/'])))

/-- After an opening `/*`, find the closing `*/` and return what
follows it (the lazy `[\s\S]*?` picks the nearest closing). -/
def dropThroughClose : List Char → Option (List Char)
  | [] => none
  | s :: rest =>
    if startsWithS (s :: rest) ('*' :: ['/']) then some (rest.drop 1)
    else dropThroughClose rest

/-- `code.replace(/\/\*[\s\S]*?\*\//g, '')`: repeatedly delete the
leftmost `/* ... */` span; an unterminated `/*` is left in place. -/
def removeBlockCommentsAux (fuel : Nat) (s : List Char) : List Char :=
  match fuel with
  | 0 => s
  | fuel + 1 =>
    match s with
    | [] => []
    | c :: rest =>
      if startsWithS (c :: rest) ('/' :: ['*']) then
        match dropThroughClose (rest.drop 1) with
        | some after => removeBlockCommentsAux fuel after
        | none => c :: rest
      else c :: removeBlockCommentsAux fuel rest

/-- `ASTParser.removeComments`: line comments first, then block
comments (and it never raises). -/
def removeComments (s : List Char) : List Char :=
  let noLine := removeLineComments s
  removeBlockCommentsAux noLine.length noLine

/-! ### The event nodes produced by `ASTParser.parseC` -/

inductive NodeKind where
  | alloc : NodeKind
  | dealloc : NodeKind
deriving DecidableEq, Repr

/-- One `Allocation`/`Deallocation` node of the pseudo-AST.  For
deallocation nodes the source object carries no `args`, `functionName`
or `inLoop` field; they are modelled as `""`, `none` and `false`, the
values JS field access would default to downstream. -/
structure CNode where
  kind : NodeKind
  var : String
  line : Nat
  fn : String
  args : String
  functionName : Option String
  inLoop : Bool
  originalLine : String
deriving DecidableEq, Repr

/-- First matching pattern of an ordered list, JS `for (const pattern
of patterns) { const match = line.match(pattern); if (match) ... }`. -/
def tryPats : List RE → List Char → Option Caps
  | [], _ => none
  | p :: rest, s =>
    match reSearch p s with
    | some caps => some caps
    | none => tryPats rest s

/-- `ASTParser.parseCAllocation`. -/
def parseCAllocation (line : List Char) (lineNum : Nat) (originalLine : List Char)
    (functionName : Option String) (inLoop : Bool) : Option CNode :=
  match tryPats mallocPats line with
  | some caps => some
      { kind := .alloc, var := groupStr caps 1, line := lineNum,
        fn := groupStr caps 2, args := groupStr caps 3,
        functionName := functionName, inLoop := inLoop,
        originalLine := (trimChars originalLine).asString }
  | none =>
    match tryPats cppPats line with
    | some caps =>
      let isArray := line.contains '[' && line.contains ']'
      some
        { kind := .alloc, var := groupStr caps 1, line := lineNum,
          fn := if isArray then "new[]" else "new", args := groupStr caps 2,
          functionName := functionName, inLoop := inLoop,
          originalLine := (trimChars originalLine).asString }
    | none => none

/-- `ASTParser.parseCDeallocation`. -/
def parseCDeallocation (line : List Char) (lineNum : Nat) (originalLine : List Char) :
    Option CNode :=
  match reSearch freePat line with
  | some caps => some
      { kind := .dealloc, var := groupStr caps 1, line := lineNum, fn := "free",
        args := "", functionName := none, inLoop := false,
        originalLine := (trimChars originalLine).asString }
  | none =>
    match reSearch delArrPat line with
    | some caps => some
        { kind := .dealloc, var := groupStr caps 1, line := lineNum, fn := "delete[]",
          args := "", functionName := none, inLoop := false,
          originalLine := (trimChars originalLine).asString }
    | none =>
      match reSearch delPat line with
      | some caps => some
          { kind := .dealloc, var := groupStr caps 1, line := lineNum, fn := "delete",
            args := "", functionName := none, inLoop := false,
            originalLine := (trimChars originalLine).asString }
      | none => none

/-! ### The `parseC` line scanner -/

/-- The per-run mutable locals of `ASTParser.parseC`. -/
structure PCState where
  currentFunction : Option String
  braceDepth : Int
  inLoop : Bool
  loopDepth : Nat
  currentStatement : List Char
  statementStartLine : Nat
  inStatement : Bool
  nodes : List CNode

def pcInit : PCState :=
  { currentFunction := none, braceDepth := 0, inLoop := false, loopDepth := 0,
    currentStatement := [], statementStartLine := 0, inStatement := false, nodes := [] }

/-- Append the parse results of one complete logical statement. -/
def pcEmit (st : PCState) (stmt : List Char) (stmtLine : Nat) (rawLine : List Char) :
    PCState :=
  let st :=
    match parseCAllocation stmt stmtLine rawLine st.currentFunction st.inLoop with
    | some n => { st with nodes := st.nodes ++ [n] }
    | none => st
  match parseCDeallocation stmt stmtLine rawLine with
  | some n => { st with nodes := st.nodes ++ [n] }
  | none => st

/-- The body of `lines.forEach` in `ASTParser.parseC`, for one line. -/
def parseCLine (st : PCState) (line : List Char) (lineNum : Nat) : PCState :=
  let trimmed := trimChars line
  if trimmed.isEmpty then
    -- blank line: `currentStatement += ' ' + trimmed` when mid-statement
    if st.inStatement then { st with currentStatement := st.currentStatement ++ [' '] }
    else st
  else
    let st :=
      match reSearch funcPat trimmed with
      | some caps =>
        if reTest ctrlPat trimmed then st
        else { st with currentFunction := some (groupStr caps 1) }
      | none => st
    let st :=
      if reTest loopPat trimmed then
        { st with inLoop := true, loopDepth := st.loopDepth + 1 }
      else st
    let opens := (trimmed.filter (· == '\x7b')).length
    let closes := (trimmed.filter (· == '\x7d')).length
    let st := { st with braceDepth := st.braceDepth + (opens : Int) - (closes : Int) }
    if endsWithC trimmed '\\' ||
        (!endsWithC trimmed ';' && !endsWithC trimmed '\x7b' && !endsWithC trimmed '\x7d') then
      -- statement continues on the next line; `return` skips the brace-exit block
      if !st.inStatement then
        { st with currentStatement := trimmed, statementStartLine := lineNum,
                  inStatement := true }
      else { st with currentStatement := st.currentStatement ++ ' ' :: trimmed }
    else
      let st :=
        if st.inStatement then
          let complete := st.currentStatement ++ ' ' :: trimmed
          let sl := if st.statementStartLine = 0 then lineNum else st.statementStartLine
          let st := pcEmit { st with inStatement := false } complete sl line
          { st with currentStatement := [], statementStartLine := 0 }
        else
          pcEmit st trimmed lineNum line
      if st.braceDepth = 0 then
        let st :=
          if st.inLoop && st.loopDepth > 0 then
            let ld := st.loopDepth - 1
            { st with loopDepth := ld, inLoop := if ld = 0 then false else st.inLoop }
          else st
        if st.currentFunction.isSome then { st with currentFunction := none } else st
      else st

/-- `ASTParser.parseC`: the pseudo-AST body (its node list).  A
statement still being accumulated at end of input is dropped, as in the
source. -/
def parseC (code : List Char) : List CNode :=
  ((splitLines code).foldl
    (fun (p : PCState × Nat) line => (parseCLine p.1 line p.2, p.2 + 1))
    (pcInit, 1)).1.nodes

/-- `ASTParser.parse`: comment removal followed by the per-language
dispatch.  The optional external `acorn` parser is not part of this
repository, so `parseJavaScript` always takes its `parseGeneric`
fallback; `parsePython`/`parseJava`/`parseRust`/`parseGo` and
`parseGeneric` all delegate to `parseC`. -/
def astParse (lang : String) (code : String) : List CNode :=
  let cleaned := removeComments code.data
  if lang = "javascript" then parseC cleaned
  else if lang = "c" then parseC cleaned
  else if lang = "cpp" then parseC cleaned
  else if lang = "python" then parseC cleaned
  else if lang = "java" then parseC cleaned
  else if lang = "rust" then parseC cleaned
  else if lang = "go" then parseC cleaned
  else parseC cleaned

/-! ### `CONFIG` (src/config.js) -/

/-- `CONFIG.TYPE_SIZES.DEFAULT`. -/
def typeSizeDEFAULT : Int := 4

/-- `CONFIG.LANGUAGE_SIZES[lang]` (`none` models an absent key). -/
def languageSize (lang : String) : Option Int :=
  if lang = "javascript" then some 8
  else if lang = "python" then some 8
  else if lang = "rust" then some 8
  else if lang = "go" then some 8
  else if lang = "java" then some 4
  else if lang = "c" then some 4
  else if lang = "cpp" then some 4
  else none

/-! ### `MemoryAnalyzer` record types -/

/-- The allocation object built by `processASTAllocation`.  The unique
id `var_line<line>_<Date.now()>` is modelled with an explicit `stamp`
parameter standing for the per-run `Date.now()` disambiguator. -/
structure AllocRec where
  var : String
  line : Nat
  fn : String
  size : Int
  lineText : String
  inLoop : Bool
  inFunction : Bool
  functionName : Option String
  allocId : String
  language : String
deriving DecidableEq, Repr

/-- The object built by `processASTDeallocation` and given to
`handleFree`. -/
structure FreeIn where
  var : String
  line : Nat
  lineText : String
  language : String
  isArray : Bool
deriving DecidableEq, Repr

/-- An entry of `analysis.frees`. -/
structure FreeRec where
  var : String
  line : Nat
  lineText : String
  freedAllocId : String
deriving DecidableEq, Repr

/-- An entry of `analysis.leaks`. -/
structure LeakRec where
  var : String
  line : Nat
  fn : String
  size : Int
  inLoop : Bool
  fix : String
deriving DecidableEq, Repr

/-- An entry of `analysis.warnings`. -/
structure WarnRec where
  typ : String
  line : Nat
  message : String
  lineText : String
deriving DecidableEq, Repr

/-- A `(line, memory)` sample of the tracker's timeline. -/
structure TimePoint where
  line : Nat
  memory : Int
deriving DecidableEq, Repr

/-- The `analysis` result object assembled by `MemoryAnalyzer.analyze`. -/
structure Analysis where
  allocations : List AllocRec
  frees : List FreeRec
  leaks : List LeakRec
  warnings : List WarnRec
  timeline : List TimePoint
deriving DecidableEq, Repr

/-- The mutable per-instance state of `MemoryAnalyzer`:
`this.allocations` (an insertion-ordered `Map` from variable name to a
stack of live allocation records), `this.timeline` and
`this.currentMemory`. -/
structure Tracker where
  allocations : List (String × List AllocRec)
  timeline : List TimePoint
  currentMemory : Int
deriving DecidableEq, Repr

def initTracker : Tracker := { allocations := [], timeline := [], currentMemory := 0 }

def initAnalysis : Analysis :=
  { allocations := [], frees := [], leaks := [], warnings := [], timeline := [] }

/-! ### The insertion-ordered map (`this.allocations`) -/

def mapHas (m : List (String × List AllocRec)) (k : String) : Bool :=
  m.any (fun p => p.1 == k)

def mapGet (m : List (String × List AllocRec)) (k : String) : List AllocRec :=
  match m with
  | [] => []
  | (k', v) :: rest => if k' = k then v else mapGet rest k

/-- `Map.set`: replace the value in place, or append a new entry. -/
def mapSet (m : List (String × List AllocRec)) (k : String) (v : List AllocRec) :
    List (String × List AllocRec) :=
  match m with
  | [] => [(k, v)]
  | (k', v') :: rest => if k' = k then (k, v) :: rest else (k', v') :: mapSet rest k v

/-- `Map.delete`. -/
def mapDelete (m : List (String × List AllocRec)) (k : String) :
    List (String × List AllocRec) :=
  match m with
  | [] => []
  | (k', v) :: rest => if k' = k then rest else (k', v) :: mapDelete rest k

/-! ### Size estimation (`calculateSizeFromAST`, `getTypeSize`) -/

/-- `MemoryAnalyzer.getTypeSize`: resolve the `sizeof(type)` argument,
else fall back to substring checks on the whole argument text
(`CHAR = 1`, `INT = FLOAT = 4`, `DOUBLE = LONG_LONG = 8`,
`DEFAULT = 4` from `CONFIG.TYPE_SIZES`). -/
def getTypeSize (a : List Char) : Int :=
  let viaSizeof : Option Int :=
    match reSearch typeSizeofCap a with
    | some caps =>
      let t := trimChars ((capsLookup caps 1).getD [])
      if hasSub t "char".data then some 1
      else if hasSub t "int".data || hasSub t "float".data then some 4
      else if hasSub t "double".data || hasSub t "long long".data then some 8
      else none
    | none => none
  match viaSizeof with
  | some r => r
  | none =>
    if hasSub a "char".data then 1
    else if hasSub a "int".data || hasSub a "float".data then 4
    else if hasSub a "double".data then 8
    else 4

/-- JS `parseInt(sizeArg) || 1` on raw argument text. -/
def parseIntOr1 (a : List Char) : Int :=
  match parseIntJS a with
  | some n => if n = 0 then 1 else n
  | none => 1

/-- `MemoryAnalyzer.calculateSizeFromAST`.  In the line-scanning
pipeline `astNode.args` is always a string, so the
`Array.isArray(astNode.args)` branches of the source take their
string arm. -/
def calculateSizeFromAST (lang fn : String) (args : String) : Int :=
  let a := args.data
  if lang = "c" || lang = "cpp" then
    let callocStep : Option Int :=
      if fn = "calloc" then
        match reSearch callocPair a with
        | some caps =>
          some (natOr1 ((capsLookup caps 1).getD []) * natOr1 ((capsLookup caps 2).getD []))
        | none => none
      else none
    match callocStep with
    | some r => r
    | none =>
      match reSearch sizeofPat1 a with
      | some caps => natOr1 ((capsLookup caps 1).getD []) * getTypeSize a
      | none =>
        match reSearch sizeofPat2 a with
        | some caps => natOr1 ((capsLookup caps 1).getD []) * getTypeSize a
        | none =>
          match reSearch numPat a with
          | some caps => natOr1 ((capsLookup caps 1).getD [])
          | none =>
            if lang = "cpp" then
              if fn = "new[]" then
                match reSearch numPat a with
                | some caps => natOr1 ((capsLookup caps 1).getD []) * typeSizeDEFAULT
                | none => 1
              else if fn = "new" then typeSizeDEFAULT
              else 1
            else 1
  else
    let langSize := (languageSize lang).getD typeSizeDEFAULT
    if lang = "javascript" then langSize
    else if lang = "python" || lang = "rust" || lang = "go" then
      parseIntOr1 (if a.isEmpty then ['1'] else a) * langSize
    else if lang = "java" then
      parseIntOr1 (if a.isEmpty then ['1'] else a) * langSize
    else 1

/-! ### Event-object construction -/

/-- `MemoryAnalyzer.getLineFromCode`. -/
def getLineFromCode (code : String) (n : Nat) : String :=
  (((splitLines code.data).getD (n - 1) []).asString)

/-- `MemoryAnalyzer.processASTAllocation`.  `stamp` stands for the
`Date.now()` call embedded in `allocId`. -/
def processASTAllocation (lang : String) (stamp : Nat) (code : String) (node : CNode) :
    AllocRec :=
  { var := node.var, line := node.line, fn := node.fn,
    size := calculateSizeFromAST lang node.fn node.args,
    lineText := if node.originalLine = "" then getLineFromCode code node.line
                else node.originalLine,
    inLoop := node.inLoop,
    -- parseC nodes carry no `inFunction` field; `astNode.inFunction || false` is false
    inFunction := false,
    functionName := node.functionName,
    allocId := node.var ++ "_line" ++ toString node.line ++ "_" ++ toString stamp,
    language := lang }

/-- `MemoryAnalyzer.processASTDeallocation`. -/
def processASTDeallocation (lang : String) (code : String) (node : CNode) : FreeIn :=
  { var := node.var, line := node.line,
    lineText := if node.originalLine = "" then getLineFromCode code node.line
                else node.originalLine,
    language := lang,
    isArray := node.fn == "delete[]" }

/-! ### The tracker transitions -/

/-- The reassignment-leak remediation text of `handleAllocation`. -/
def reassignFix (v : String) (newLine oldLine : Nat) : String :=
  "Memory leak: " ++ v ++ " was reassigned on line " ++ toString newLine ++
  " without freeing the previous allocation on line " ++ toString oldLine ++
  ". Add free(" ++ v ++ "); before the reassignment."

/-- `MemoryAnalyzer.handleAllocation`: evict (and report as leak) a
still-live record for the same variable, then push the new record. -/
def handleAllocation (alloc : AllocRec) (st : Tracker) (an : Analysis) :
    Tracker × Analysis :=
  if alloc.var = "" then (st, an)
  else
    let p1 : Tracker × Analysis :=
      if mapHas st.allocations alloc.var then
        let ex := mapGet st.allocations alloc.var
        match ex.getLast? with
        | some lastA =>
          ({ st with currentMemory := st.currentMemory - lastA.size,
                     allocations := mapSet st.allocations alloc.var ex.dropLast },
           { an with leaks := an.leaks ++
              [{ var := alloc.var, line := lastA.line, fn := lastA.fn, size := lastA.size,
                 inLoop := lastA.inLoop,
                 fix := reassignFix alloc.var alloc.line lastA.line }] })
        | none => (st, an)
      else (st, an)
    let st1 := p1.1
    let an1 := p1.2
    let base := if mapHas st1.allocations alloc.var then st1.allocations
                else mapSet st1.allocations alloc.var []
    ({ st1 with allocations := mapSet base alloc.var (mapGet base alloc.var ++ [alloc]),
                currentMemory := st1.currentMemory + alloc.size },
     { an1 with allocations := an1.allocations ++ [alloc] })

/-- `MemoryAnalyzer.handleFree`. -/
def handleFree (f : FreeIn) (st : Tracker) (an : Analysis) : Tracker × Analysis :=
  if f.var = "" then (st, an)
  else if !mapHas st.allocations f.var then
    (st, { an with warnings := an.warnings ++
      [{ typ := "Potential Double Free", line := f.line,
         message := "free() called on " ++ f.var ++
           " which may not be allocated or already freed.",
         lineText := f.lineText }] })
  else
    let allocs := mapGet st.allocations f.var
    match allocs.getLast? with
    | none =>
      (st, { an with warnings := an.warnings ++
        [{ typ := "Double Free", line := f.line,
           message := "free() called on " ++ f.var ++ " which has already been freed.",
           lineText := f.lineText }] })
    | some freed =>
      let rest := allocs.dropLast
      let st1 := { st with allocations := mapSet st.allocations f.var rest,
                           currentMemory := st.currentMemory - freed.size }
      let an1 := { an with frees := an.frees ++
        [{ var := f.var, line := f.line, lineText := f.lineText,
           freedAllocId := freed.allocId }] }
      if rest.isEmpty then
        ({ st1 with allocations := mapDelete st1.allocations f.var }, an1)
      else (st1, an1)

/-- `MemoryAnalyzer.updateTimeline`: push a `(line, currentMemory)`
sample onto the tracker timeline. -/
def updateTimeline (st : Tracker) (lineNum : Nat) : Tracker :=
  { st with timeline := st.timeline ++ [{ line := lineNum, memory := st.currentMemory }] }

/-- `MemoryAnalyzer.detectCodeQualityIssues`: per raw source line, one
"Unsafe Function" warning when the line contains `strcpy(` and does
not contain `strncpy` anywhere (the `malloc|calloc|realloc` match in
the source has an empty body and contributes nothing). -/
def detectCodeQualityIssues (line : String) (lineNum : Nat) (originalLine : String)
    (an : Analysis) : Analysis :=
  if line = "" then an
  else if hasSub line.data "strcpy(".data && !hasSub line.data "strncpy".data then
    { an with warnings := an.warnings ++
      [{ typ := "Unsafe Function", line := lineNum,
         message := "strcpy() used without bounds checking. Consider using strncpy() or strcpy_s().",
         lineText := (trimChars originalLine.data).asString }] }
  else an

/-- The remediation text chosen by `findLeaks`.  The truthiness test
`alloc.functionName && alloc.functionName !== 'main'` treats both an
absent name and the empty string as falsy. -/
def leakFix (v : String) (a : AllocRec) : String :=
  if a.inLoop then
    "Add free(" ++ v ++ "); inside the loop after use, or collect pointers and free them after the loop."
  else if a.inFunction && a.functionName.getD "" ≠ "" && a.functionName.getD "" ≠ "main" then
    "Memory allocated in " ++ a.functionName.getD "" ++ "() on line " ++ toString a.line ++
    ". Ensure caller frees this memory, or free it before function return."
  else
    "Add free(" ++ v ++ "); before function return or at appropriate cleanup point."

/-- `MemoryAnalyzer.findLeaks`: every record still live at end of
stream becomes a leak entry, in map insertion order. -/
def findLeaks (st : Tracker) (an : Analysis) : Analysis :=
  { an with leaks := an.leaks ++
      (st.allocations.map (fun p =>
        p.2.map (fun a =>
          ({ var := if p.1 = "" then "unknown" else p.1, line := a.line, fn := a.fn,
             size := a.size, inLoop := a.inLoop, fix := leakFix p.1 a } : LeakRec)))).flatten }

/-! ### `MemoryAnalyzer.analyze` -/

/-- Process one AST node: dispatch on its kind, then record a timeline
sample (`this.updateTimeline(node.line || 1)` runs for every node). -/
def processNode (lang : String) (stamp : Nat) (code : String)
    (p : Tracker × Analysis) (node : CNode) : Tracker × Analysis :=
  let q :=
    match node.kind with
    | .alloc => handleAllocation (processASTAllocation lang stamp code node) p.1 p.2
    | .dealloc => handleFree (processASTDeallocation lang code node) p.1 p.2
  (updateTimeline q.1 (if node.line = 0 then 1 else node.line), q.2)

def processNodes (lang : String) (stamp : Nat) (code : String) (nodes : List CNode)
    (p : Tracker × Analysis) : Tracker × Analysis :=
  nodes.foldl (processNode lang stamp code) p

/-- The quality-scan pass of `analyze`: over the lines of the original
(uncleaned) source text. -/
def qualityPass (code : String) (an : Analysis) : Analysis :=
  ((splitLines code.data).foldl
    (fun (q : Analysis × Nat) line =>
      (detectCodeQualityIssues line.asString q.2 line.asString q.1, q.2 + 1))
    (an, 1)).1

/-- The whole successful path of `MemoryAnalyzer.analyze`, returning
both the assembled result object and the final tracker state.  Note
the returned `analysis.timeline` field is the `timeline: []` of the
result literal in the source: `updateTimeline` only ever appends to
`this.timeline`, which is never copied into the result. -/
def runAnalysis (lang code : String) (stamp : Nat) : Analysis × Tracker :=
  let nodes := astParse lang code
  let p := processNodes lang stamp code nodes (initTracker, initAnalysis)
  let an := qualityPass code p.2
  let an := findLeaks p.1 an
  (an, p.1)

/-- `MemoryAnalyzer.analyze`: the only raising path is the input
validation guard (`!code || typeof code !== 'string'`; with the input
modelled as a string, exactly the empty string).  Every other branch
of the model is total, mirroring the pervasive try/catch recovery of
the source. -/
def analyze (lang code : String) (stamp : Nat) : Except String Analysis :=
  if code = "" then
    .error "Invalid code input: code must be a non-empty string"
  else
    .ok (runAnalysis lang code stamp).1

/-! ### Proof-support definitions

`MapInv` states the C10 stack-discipline invariant.  The `erase*`
family removes exactly the size-derived data (allocation sizes, leak
sizes, timeline memory values, the running memory counter and the
`language` tag) from states and results; it is used to compare runs of
the pipeline under different language values (claim C8).  `SizesOne`
states that every recorded allocation was estimated at 1 byte. -/

/-- Every per-variable stack of the map has at most one record. -/
def MapInv (m : List (String × List AllocRec)) : Prop :=
  ∀ p ∈ m, (p : String × List AllocRec).2.length ≤ 1

def eraseA (a : AllocRec) : AllocRec := { a with size := 0, language := "" }

def eraseL (l : LeakRec) : LeakRec := { l with size := 0 }

def eraseT (t : TimePoint) : TimePoint := { t with memory := 0 }

def eraseMap (m : List (String × List AllocRec)) : List (String × List AllocRec) :=
  m.map (fun p => (p.1, p.2.map eraseA))

def eraseTracker (st : Tracker) : Tracker :=
  { allocations := eraseMap st.allocations, timeline := st.timeline.map eraseT,
    currentMemory := 0 }

def eraseAnalysis (an : Analysis) : Analysis :=
  { allocations := an.allocations.map eraseA, frees := an.frees,
    leaks := an.leaks.map eraseL, warnings := an.warnings,
    timeline := an.timeline.map eraseT }

def SizesOne (an : Analysis) : Prop := ∀ a ∈ an.allocations, a.size = 1

/-! ## Claim C1 -/

/-- C1: for every input, `analyze` either raises exactly the
input-validation error — and it does so precisely when the source text
is empty (the only value of the string-typed model falsifying
`code && typeof code === 'string'`) — or returns the well-formed
result object assembled by the pipeline, whose five sequences are
present by construction.  In this shallow embedding every internal
step is total, mirroring the try/catch recovery of the source, so no
other failure can escape. -/
theorem analyze_returns_or_validation_error (lang code : String) (stamp : Nat) :
    (code = "" → analyze lang code stamp =
        .error "Invalid code input: code must be a non-empty string") ∧
    (code ≠ "" → analyze lang code stamp = .ok (runAnalysis lang code stamp).1) := by
  constructor
  · intro h
    simp [analyze, h]
  · intro h
    simp [analyze, h]

theorem analyze_returns_or_validation_error_witness :
    analyze "c" "" 0 = .error "Invalid code input: code must be a non-empty string" ∧
    analyze "c" "int x;" 0 = .ok (runAnalysis "c" "int x;" 0).1 :=
  ⟨(analyze_returns_or_validation_error "c" "" 0).1 rfl,
   (analyze_returns_or_validation_error "c" "int x;" 0).2 (by decide)⟩

/-! ## Claim C2 -/

/-- C2: the tracker's own timeline does receive one `(line, memory)`
sample per extracted event (here one allocation event, sampled at line
1 with 4 live bytes), but the `timeline` field of the result object
returned by `analyze` is the empty array of the result literal —
`updateTimeline` appends to `this.timeline` only, which is never
copied into the returned result. -/
theorem timeline_never_copied_into_result (stamp : Nat) :
    (astParse "c" "int *p = malloc(4);").length = 1 ∧
    (runAnalysis "c" "int *p = malloc(4);" stamp).2.timeline =
      [{ line := 1, memory := 4 }] ∧
    (runAnalysis "c" "int *p = malloc(4);" stamp).1.timeline = [] := by
  refine ⟨rfl, rfl, rfl⟩

/-! ## Claim C3 -/

/-- C3 counterexample: on `"int *p = malloc(10); p = malloc(20);"` the
result does not contain two leaks — it contains exactly one, and no
free. -/
theorem reassignment_input_two_leaks_false :
    (runAnalysis "c" "int *p = malloc(10); p = malloc(20);" 0).1.leaks.length = 1 ∧
    (runAnalysis "c" "int *p = malloc(10); p = malloc(20);" 0).1.leaks.length ≠ 2 ∧
    (runAnalysis "c" "int *p = malloc(10); p = malloc(20);" 0).1.frees = [] := by
  refine ⟨rfl, by decide, rfl⟩

/-- C3 amended: the whole input is a single logical statement, and
`parseCAllocation` returns only the first matching allocation per
statement, so only the size-10 allocation of `p` is extracted; the
reassignment is never seen.  The result holds exactly one allocation
and exactly one end-of-stream leak for that size-10 allocation, and no
frees. -/
theorem reassignment_input_actual_result (stamp : Nat) :
    (runAnalysis "c" "int *p = malloc(10); p = malloc(20);" stamp).1.allocations.length = 1 ∧
    (runAnalysis "c" "int *p = malloc(10); p = malloc(20);" stamp).1.leaks.map
        (fun l => (l.var, l.line, l.fn, l.size, l.inLoop)) =
      [("p", 1, "malloc", 10, false)] ∧
    (runAnalysis "c" "int *p = malloc(10); p = malloc(20);" stamp).1.frees = [] := by
  refine ⟨rfl, rfl, rfl⟩

/-! ## Claim C4 -/

/-- C4 counterexample: on `"int *p = malloc(4); free(p); free(p);"`
the result contains no warning at all (in particular no double-free
warning): `parseCDeallocation` extracts only the first `free(` match
of the single line, so the second free is never seen. -/
theorem double_free_input_no_warning :
    (runAnalysis "c" "int *p = malloc(4); free(p); free(p);" 0).1.warnings = [] ∧
    (runAnalysis "c" "int *p = malloc(4); free(p); free(p);" 0).1.warnings.length ≠ 1 ∧
    (runAnalysis "c" "int *p = malloc(4); free(p); free(p);" 0).1.frees.length = 1 := by
  refine ⟨rfl, by decide, rfl⟩

/-- C4 amended: on the double-free input the result holds exactly one
free entry and no warning, because only the first `free(` occurrence
per line is extracted; and, in general, a `Deallocation` event for a
variable with no entry in the live-allocation map emits exactly the
"Potential Double Free" warning and leaves the tracker state
unchanged. -/
theorem double_free_detection_actual :
    (∀ stamp : Nat,
      (runAnalysis "c" "int *p = malloc(4); free(p); free(p);" stamp).1.warnings = [] ∧
      (runAnalysis "c" "int *p = malloc(4); free(p); free(p);" stamp).1.frees.length = 1) ∧
    (∀ (f : FreeIn) (st : Tracker) (an : Analysis),
      f.var ≠ "" → mapHas st.allocations f.var = false →
      handleFree f st an =
        (st, { an with warnings := an.warnings ++
          [{ typ := "Potential Double Free", line := f.line,
             message := "free() called on " ++ f.var ++
               " which may not be allocated or already freed.",
             lineText := f.lineText }] })) := by
  constructor
  · intro stamp
    exact ⟨rfl, rfl⟩
  · intro f st an hv hh
    simp [handleFree, hv, hh]

theorem double_free_detection_actual_witness :
    ((runAnalysis "c" "int *p = malloc(4); free(p); free(p);" 0).1.warnings = [] ∧
      (runAnalysis "c" "int *p = malloc(4); free(p); free(p);" 0).1.frees.length = 1) ∧
    handleFree { var := "q", line := 3, lineText := "free(q);", language := "c",
                 isArray := false } initTracker initAnalysis =
      (initTracker, { initAnalysis with warnings := initAnalysis.warnings ++
        [{ typ := "Potential Double Free", line := 3,
           message := "free() called on " ++ "q" ++
             " which may not be allocated or already freed.",
           lineText := "free(q);" }] }) :=
  ⟨double_free_detection_actual.1 0,
   double_free_detection_actual.2
     { var := "q", line := 3, lineText := "free(q);", language := "c", isArray := false }
     initTracker initAnalysis (by decide) rfl⟩

/-! ## Claim C5 -/

/-- C5: clean pairing on `"int *p = malloc(4); free(p);"` — exactly
one allocation, exactly one free whose `freedAllocId` is exactly that
allocation's `allocId`, no leaks and no warnings, for every value of
the `Date.now()` disambiguator. -/
theorem clean_pairing (stamp : Nat) :
    (runAnalysis "c" "int *p = malloc(4); free(p);" stamp).1.allocations.length = 1 ∧
    (runAnalysis "c" "int *p = malloc(4); free(p);" stamp).1.frees.length = 1 ∧
    (runAnalysis "c" "int *p = malloc(4); free(p);" stamp).1.frees.map FreeRec.freedAllocId =
      (runAnalysis "c" "int *p = malloc(4); free(p);" stamp).1.allocations.map
        AllocRec.allocId ∧
    (runAnalysis "c" "int *p = malloc(4); free(p);" stamp).1.leaks = [] ∧
    (runAnalysis "c" "int *p = malloc(4); free(p);" stamp).1.warnings = [] := by
  refine ⟨rfl, rfl, rfl, rfl, rfl⟩

/-! ## Claim C6 -/

/-- C6: on `"int *a = malloc(10 * sizeof(int));"` the pipeline
estimates 10 bytes, not the specified 40: the `([^)]+)` argument
capture of the allocation patterns stops at the `)` inside
`sizeof(int)`, truncating the recorded arguments to
`"10 * sizeof(int"`, on which neither sizeof pattern can match, so the
bare-integer fallback fires.  Handed the untruncated argument text,
`calculateSizeFromAST` does return 40 = 10 × sizeof(int), confirming
the claim describes the estimator's intent.  The `"char *b =
malloc(10);"` half behaves as claimed (10 bytes). -/
theorem sizeof_size_estimation_truncated (stamp : Nat) :
    (astParse "c" "int *a = malloc(10 * sizeof(int));").map CNode.args =
      ["10 * sizeof(int"] ∧
    (runAnalysis "c" "int *a = malloc(10 * sizeof(int));" stamp).1.allocations.map
        AllocRec.size = [10] ∧
    calculateSizeFromAST "c" "malloc" "10 * sizeof(int)" = 40 ∧
    (runAnalysis "c" "char *b = malloc(10);" stamp).1.allocations.map AllocRec.size =
      [10] := by
  refine ⟨rfl, rfl, rfl, rfl⟩

/-! ## Claim C7 -/

/-- C7 counterexample: a cpp array-new allocation event whose
arguments contain the element count 10 is estimated at 10 bytes, not
10 × 4 = 40; a scalar-new event with the same arguments is also
estimated at 10, not 4.  The earlier bare-integer branch of
`calculateSizeFromAST` returns before the cpp-specific `new[]` / `new`
branches are ever reached whenever the arguments contain a digit. -/
theorem cpp_new_size_claim_false :
    calculateSizeFromAST "cpp" "new[]" "10" = 10 ∧
    calculateSizeFromAST "cpp" "new[]" "10" ≠ 40 ∧
    calculateSizeFromAST "cpp" "new" "10" = 10 ∧
    calculateSizeFromAST "cpp" "new" "10" ≠ 4 := by
  refine ⟨rfl, by decide, rfl, by decide⟩

/-! ## Claim C9 -/

/-- C9 counterexample: a line holding two `strcpy(` occurrences (and
no `strncpy`) yields exactly one "Unsafe Function" warning, not one
per occurrence. -/
theorem strcpy_per_occurrence_false :
    countSub "strcpy(a, b); strcpy(c, d);".data "strcpy(".data = 2 ∧
    (runAnalysis "c" "strcpy(a, b); strcpy(c, d);" 0).1.warnings.map WarnRec.typ =
      ["Unsafe Function"] ∧
    (runAnalysis "c" "strcpy(a, b); strcpy(c, d);" 0).1.warnings.length ≠ 2 := by
  refine ⟨rfl, rfl, by decide⟩

/-- C9 amended: the quality scan is line-local and state-independent —
for every raw source line and every accumulated analysis state, it
appends exactly one "Unsafe Function" warning when the line contains
`strcpy(` and does not contain `strncpy` anywhere, and nothing
otherwise; in particular it appends at most one warning per line no
matter how many `strcpy(` occurrences the line holds, and a `strncpy`
anywhere on the line suppresses the warning entirely. -/
theorem unsafe_function_warning_per_line (line : String) (lineNum : Nat)
    (originalLine : String) (an : Analysis) :
    detectCodeQualityIssues line lineNum originalLine an =
      { an with warnings := an.warnings ++
        (if hasSub line.data "strcpy(".data && !hasSub line.data "strncpy".data then
          [{ typ := "Unsafe Function", line := lineNum,
             message := "strcpy() used without bounds checking. Consider using strncpy() or strcpy_s().",
             lineText := (trimChars originalLine.data).asString }]
         else []) } ∧
    (detectCodeQualityIssues line lineNum originalLine an).warnings.length ≤
      an.warnings.length + 1 := by
  constructor
  · by_cases hl : line = ""
    · subst hl
      simp [detectCodeQualityIssues, hasSub]
    · rw [detectCodeQualityIssues, if_neg hl]
      by_cases hc : hasSub line.data "strcpy(".data && !hasSub line.data "strncpy".data
      · rw [if_pos hc, if_pos hc]
      · rw [if_neg hc, if_neg hc]
        simp
  · rw [detectCodeQualityIssues]
    by_cases hl : line = ""
    · rw [if_pos hl]
      omega
    · rw [if_neg hl]
      by_cases hc : hasSub line.data "strcpy(".data && !hasSub line.data "strncpy".data
      · rw [if_pos hc]
        simp
      · rw [if_neg hc]
        omega

/-! ## Claim C10: the per-variable stacks never exceed length one -/

theorem mem_mapSet {k : String} {v : List AllocRec} :
    ∀ {m : List (String × List AllocRec)} {q}, q ∈ mapSet m k v → q = (k, v) ∨ q ∈ m := by
  intro m
  induction m with
  | nil =>
    intro q hq
    simp only [mapSet, List.mem_singleton] at hq
    exact Or.inl hq
  | cons p rest ih =>
    obtain ⟨k', v'⟩ := p
    intro q hq
    simp only [mapSet] at hq
    split at hq
    · rcases List.mem_cons.mp hq with h | h
      · exact Or.inl h
      · exact Or.inr (List.mem_cons_of_mem _ h)
    · rcases List.mem_cons.mp hq with h | h
      · exact Or.inr (h ▸ List.mem_cons_self _ _)
      · rcases ih h with h' | h'
        · exact Or.inl h'
        · exact Or.inr (List.mem_cons_of_mem _ h')

theorem mem_mapDelete {k : String} :
    ∀ {m : List (String × List AllocRec)} {q}, q ∈ mapDelete m k → q ∈ m := by
  intro m
  induction m with
  | nil =>
    intro q hq
    simp [mapDelete] at hq
  | cons p rest ih =>
    obtain ⟨k', v'⟩ := p
    intro q hq
    simp only [mapDelete] at hq
    split at hq
    · exact List.mem_cons_of_mem _ hq
    · rcases List.mem_cons.mp hq with h | h
      · exact h ▸ List.mem_cons_self _ _
      · exact List.mem_cons_of_mem _ (ih h)

theorem mapGet_eq_nil_or_mem (m : List (String × List AllocRec)) (k : String) :
    mapGet m k = [] ∨ (k, mapGet m k) ∈ m := by
  induction m with
  | nil => exact Or.inl rfl
  | cons p rest ih =>
    obtain ⟨k', v'⟩ := p
    simp only [mapGet]
    split
    · rename_i h
      subst h
      exact Or.inr (List.mem_cons_self _ _)
    · rcases ih with h | h
      · exact Or.inl h
      · exact Or.inr (List.mem_cons_of_mem _ h)

@[simp]
theorem mapHas_mapSet_self (m : List (String × List AllocRec)) (k : String)
    (v : List AllocRec) : mapHas (mapSet m k v) k = true := by
  induction m with
  | nil => simp [mapSet, mapHas]
  | cons p rest ih =>
    obtain ⟨k', v'⟩ := p
    simp only [mapSet]
    split
    · simp [mapHas]
    · simp only [mapHas, List.any_cons] at ih ⊢
      simp [ih]

@[simp]
theorem mapGet_mapSet_self (m : List (String × List AllocRec)) (k : String)
    (v : List AllocRec) : mapGet (mapSet m k v) k = v := by
  induction m with
  | nil => simp [mapSet, mapGet]
  | cons p rest ih =>
    obtain ⟨k', v'⟩ := p
    simp only [mapSet]
    split
    · simp [mapGet]
    · rename_i h
      simpa [mapGet, h] using ih

theorem mapInv_mapSet {m : List (String × List AllocRec)} {k : String}
    {v : List AllocRec} (hm : MapInv m) (hv : v.length ≤ 1) : MapInv (mapSet m k v) := by
  intro q hq
  rcases mem_mapSet hq with h | h
  · rw [h]
    exact hv
  · exact hm q h

theorem mapInv_mapDelete {m : List (String × List AllocRec)} {k : String}
    (hm : MapInv m) : MapInv (mapDelete m k) :=
  fun q hq => hm q (mem_mapDelete hq)

theorem mapInv_get_le {m : List (String × List AllocRec)} {k : String}
    (hm : MapInv m) : (mapGet m k).length ≤ 1 := by
  rcases mapGet_eq_nil_or_mem m k with h | h
  · simp [h]
  · exact hm _ h

theorem handleAllocation_mapInv (a : AllocRec) (st : Tracker) (an : Analysis)
    (h : MapInv st.allocations) : MapInv (handleAllocation a st an).1.allocations := by
  rw [handleAllocation]
  by_cases hv : a.var = ""
  · rw [if_pos hv]
    exact h
  · rw [if_neg hv]
    by_cases hHas : mapHas st.allocations a.var
    · have hex : (mapGet st.allocations a.var).length ≤ 1 := mapInv_get_le h
      rcases hLa : (mapGet st.allocations a.var).getLast? with _ | lastA
      · -- the stack is present but empty: nothing is popped
        have hnil : mapGet st.allocations a.var = [] := by
          cases hg : mapGet st.allocations a.var with
          | nil => rfl
          | cons x xs =>
            rw [hg] at hLa
            simp [List.getLast?_concat, List.getLast?] at hLa
        simp only [hHas, if_true, hnil, List.getLast?_nil, List.nil_append]
        exact mapInv_mapSet h (by simp)
      · -- a live record is popped (reassignment leak), then the new one pushed
        have hdl : (mapGet st.allocations a.var).dropLast.length = 0 := by
          have := List.length_dropLast (mapGet st.allocations a.var)
          have hne : mapGet st.allocations a.var ≠ [] := by
            intro hg
            rw [hg] at hLa
            simp at hLa
          have : (mapGet st.allocations a.var).length ≠ 0 :=
            fun hz => hne (List.length_eq_zero.mp hz)
          omega
        simp only [hHas, if_true, hLa, mapHas_mapSet_self, mapGet_mapSet_self]
        apply mapInv_mapSet (mapInv_mapSet h (by omega))
        simp [hdl, List.length_eq_zero.mp hdl]
    · simp only [hHas, if_false, Bool.false_eq_true, mapHas_mapSet_self,
        mapGet_mapSet_self]
      apply mapInv_mapSet (mapInv_mapSet h (by simp))
      simp

theorem handleFree_mapInv (f : FreeIn) (st : Tracker) (an : Analysis)
    (h : MapInv st.allocations) : MapInv (handleFree f st an).1.allocations := by
  rw [handleFree]
  by_cases hv : f.var = ""
  · rw [if_pos hv]
    exact h
  · rw [if_neg hv]
    by_cases hHas : mapHas st.allocations f.var
    · have hex : (mapGet st.allocations f.var).length ≤ 1 := mapInv_get_le h
      rcases hLa : (mapGet st.allocations f.var).getLast? with _ | freed
      · simp only [hHas, Bool.not_true, Bool.false_eq_true, if_false, hLa]
        exact h
      · have hmi : MapInv (mapSet st.allocations f.var
            (mapGet st.allocations f.var).dropLast) := by
          apply mapInv_mapSet h
          have := List.length_dropLast (mapGet st.allocations f.var)
          omega
        simp only [hHas, Bool.not_true, Bool.false_eq_true, if_false, hLa]
        split
        · exact mapInv_mapDelete hmi
        · exact hmi
    · have hHas' : mapHas st.allocations f.var = false := by
        simpa using hHas
      simp only [hHas', Bool.not_false, if_true]
      exact h

theorem processNode_mapInv (lang : String) (stamp : Nat) (code : String)
    (p : Tracker × Analysis) (node : CNode) (h : MapInv p.1.allocations) :
    MapInv (processNode lang stamp code p node).1.allocations := by
  rw [processNode]
  cases node.kind with
  | alloc => exact handleAllocation_mapInv _ _ _ h
  | dealloc => exact handleFree_mapInv _ _ _ h

theorem processNodes_mapInv (lang : String) (stamp : Nat) (code : String)
    (nodes : List CNode) :
    ∀ p : Tracker × Analysis, MapInv p.1.allocations →
      MapInv (processNodes lang stamp code nodes p).1.allocations := by
  induction nodes with
  | nil => exact fun p h => h
  | cons n rest ih =>
    intro p h
    exact ih _ (processNode_mapInv lang stamp code p n h)

/-- C10: stack discipline — for every language, disambiguator, source
text and sequence of `Allocation`/`Deallocation` events, processing
the events from the initial tracker state leaves every per-variable
stack of `liveAllocations` with at most one record: `handleAllocation`
always pops a still-live record (reporting it as a reassignment leak)
before pushing the new one, and `handleFree` only ever pops, so no
stack can grow beyond length one. -/
theorem per_variable_stack_at_most_one (lang : String) (stamp : Nat) (code : String)
    (nodes : List CNode) :
    ((processNodes lang stamp code nodes (initTracker, initAnalysis)).1.allocations.all
      (fun p => decide (p.2.length ≤ 1))) = true := by
  rw [List.all_eq_true]
  intro p hp
  have hinv : MapInv (processNodes lang stamp code nodes
      (initTracker, initAnalysis)).1.allocations :=
    processNodes_mapInv lang stamp code nodes (initTracker, initAnalysis)
      (by intro q hq; simp [initTracker] at hq)
  simpa using hinv p hp

/-- C7 amended: for cpp allocation events whose arguments contain no
`count * sizeof(type)` pattern, the first bare integer of the
arguments — when one exists — is returned directly as the estimate for
both array-new and scalar-new forms (the dedicated cpp branches are
unreachable then); only for digit-free arguments do the cpp branches
fire, giving the 4-byte default for scalar-new and 1 for array-new
(whose count-times-default multiplication is dead code: it re-runs the
same integer search that just failed). -/
theorem cpp_new_size_actual (args : String)
    (h1 : reSearch sizeofPat1 args.data = none)
    (h2 : reSearch sizeofPat2 args.data = none) :
    (calculateSizeFromAST "cpp" "new[]" args =
      (match reSearch numPat args.data with
       | some caps => natOr1 ((capsLookup caps 1).getD [])
       | none => 1)) ∧
    (calculateSizeFromAST "cpp" "new" args =
      (match reSearch numPat args.data with
       | some caps => natOr1 ((capsLookup caps 1).getD [])
       | none => typeSizeDEFAULT)) := by
  constructor <;>
  · rw [calculateSizeFromAST]
    simp only [h1, h2]
    rcases hn : reSearch numPat args.data with _ | caps <;> simp [hn]

theorem cpp_new_size_actual_witness :
    reSearch sizeofPat1 ("10" : String).data = none ∧
    reSearch sizeofPat2 ("10" : String).data = none ∧
    (calculateSizeFromAST "cpp" "new[]" "10" =
      (match reSearch numPat ("10" : String).data with
       | some caps => natOr1 ((capsLookup caps 1).getD [])
       | none => 1)) ∧
    (calculateSizeFromAST "cpp" "new" "10" =
      (match reSearch numPat ("10" : String).data with
       | some caps => natOr1 ((capsLookup caps 1).getD [])
       | none => typeSizeDEFAULT)) :=
  ⟨rfl, rfl, (cpp_new_size_actual "10" rfl rfl).1, (cpp_new_size_actual "10" rfl rfl).2⟩

/-! ## Claim C8: unrecognized-language runs versus the c run -/

theorem astParse_eq_parseC (lang code : String) :
    astParse lang code = parseC (removeComments code.data) := by
  simp only [astParse]
  split_ifs <;> rfl

@[simp]
theorem eraseA_var (a : AllocRec) : (eraseA a).var = a.var := rfl

@[simp]
theorem eraseA_line (a : AllocRec) : (eraseA a).line = a.line := rfl

@[simp]
theorem eraseA_fn (a : AllocRec) : (eraseA a).fn = a.fn := rfl

@[simp]
theorem eraseA_size (a : AllocRec) : (eraseA a).size = 0 := rfl

@[simp]
theorem eraseA_lineText (a : AllocRec) : (eraseA a).lineText = a.lineText := rfl

@[simp]
theorem eraseA_inLoop (a : AllocRec) : (eraseA a).inLoop = a.inLoop := rfl

@[simp]
theorem eraseA_inFunction (a : AllocRec) : (eraseA a).inFunction = a.inFunction := rfl

@[simp]
theorem eraseA_functionName (a : AllocRec) : (eraseA a).functionName = a.functionName := rfl

@[simp]
theorem eraseA_allocId (a : AllocRec) : (eraseA a).allocId = a.allocId := rfl

@[simp]
theorem mapHas_eraseMap (m : List (String × List AllocRec)) (k : String) :
    mapHas (eraseMap m) k = mapHas m k := by
  simp only [mapHas, eraseMap, List.any_map]
  rfl

@[simp]
theorem mapGet_eraseMap (m : List (String × List AllocRec)) (k : String) :
    mapGet (eraseMap m) k = (mapGet m k).map eraseA := by
  induction m with
  | nil => rfl
  | cons p rest ih =>
    obtain ⟨k', v⟩ := p
    simp only [eraseMap, List.map_cons] at ih ⊢
    rw [mapGet, mapGet]
    split
    · rfl
    · exact ih

theorem mapSet_eraseMap (m : List (String × List AllocRec)) (k : String)
    (v : List AllocRec) :
    mapSet (eraseMap m) k (v.map eraseA) = eraseMap (mapSet m k v) := by
  induction m with
  | nil => rfl
  | cons p rest ih =>
    obtain ⟨k', v'⟩ := p
    simp only [eraseMap, List.map_cons] at ih ⊢
    rw [mapSet, mapSet]
    split
    · simp [eraseMap]
    · simp only [List.map_cons, eraseMap] at *
      rw [ih]

theorem mapDelete_eraseMap (m : List (String × List AllocRec)) (k : String) :
    mapDelete (eraseMap m) k = eraseMap (mapDelete m k) := by
  induction m with
  | nil => rfl
  | cons p rest ih =>
    obtain ⟨k', v'⟩ := p
    simp only [eraseMap, List.map_cons] at ih ⊢
    rw [mapDelete, mapDelete]
    split
    · rfl
    · simp only [List.map_cons, eraseMap] at *
      rw [ih]

theorem dropLast_map_eraseA (l : List AllocRec) :
    (l.map eraseA).dropLast = l.dropLast.map eraseA := (List.map_dropLast _ _).symm

theorem map_eraseA_append_single (l : List AllocRec) (a : AllocRec) :
    l.map eraseA ++ [eraseA a] = (l ++ [a]).map eraseA := by
  simp

theorem isEmpty_map_eraseA (l : List AllocRec) : (l.map eraseA).isEmpty = l.isEmpty := by
  cases l <;> rfl

theorem getLast?_map_eraseA (l : List AllocRec) :
    (l.map eraseA).getLast? = l.getLast?.map eraseA := List.getLast?_map _ _

theorem mapSet_eraseMap_nil (m : List (String × List AllocRec)) (k : String) :
    mapSet (eraseMap m) k [] = eraseMap (mapSet m k []) := by
  simpa using mapSet_eraseMap m k []

theorem mapSet_eraseMap_single (m : List (String × List AllocRec)) (k : String)
    (a : AllocRec) :
    mapSet (eraseMap m) k [eraseA a] = eraseMap (mapSet m k [a]) := by
  simpa using mapSet_eraseMap m k [a]

/-- Erasure commutes with `handleAllocation`: processing an allocation
record and then erasing size data yields the same state as processing
the erased record on the erased state. -/
theorem handleAllocation_erase (a : AllocRec) (st : Tracker) (an : Analysis) :
    (eraseTracker (handleAllocation a st an).1,
      eraseAnalysis (handleAllocation a st an).2) =
      handleAllocation (eraseA a) (eraseTracker st) (eraseAnalysis an) := by
  rw [handleAllocation, handleAllocation]
  by_cases hv : a.var = ""
  · rw [if_pos hv, if_pos (show (eraseA a).var = "" from hv)]
  · rw [if_neg hv, if_neg (show ¬(eraseA a).var = "" from hv)]
    by_cases hHas : mapHas st.allocations a.var
    · rcases hLa : (mapGet st.allocations a.var).getLast? with _ | lastA
      · have hnil : mapGet st.allocations a.var = [] := by
          cases hg : mapGet st.allocations a.var with
          | nil => rfl
          | cons x xs =>
            rw [hg] at hLa
            simp [List.getLast?_concat, List.getLast?] at hLa
        simp only [eraseTracker, eraseAnalysis, eraseA_var, mapHas_eraseMap, hHas,
          eq_self_iff_true, if_true, mapGet_eraseMap, hnil, List.map_nil,
          List.getLast?_nil, List.nil_append, List.map_append, List.map_cons]
        rw [mapSet_eraseMap_single]
        simp [eraseA]
      · simp only [eraseTracker, eraseAnalysis, eraseA_var, mapHas_eraseMap, hHas,
          eq_self_iff_true, if_true, mapGet_eraseMap, getLast?_map_eraseA, hLa,
          Option.map_some', dropLast_map_eraseA, mapHas_mapSet_self,
          mapGet_mapSet_self]
        simp only [map_eraseA_append_single]
        simp only [mapSet_eraseMap]
        simp [eraseL, eraseA]
    · have hHas' : mapHas st.allocations a.var = false := by
        simpa using hHas
      simp only [eraseTracker, eraseAnalysis, eraseA_var, mapHas_eraseMap, hHas',
        Bool.false_eq_true, if_false, mapSet_eraseMap_nil, mapHas_mapSet_self,
        eq_self_iff_true, if_true, mapGet_mapSet_self, mapGet_eraseMap,
        List.map_nil, List.nil_append, eraseA_size]
      rw [mapSet_eraseMap_single]
      simp [eraseA]

/-- Erasure commutes with `handleFree` (the free records reference
`allocId`, which erasure preserves, so `frees` and `warnings` agree on
the nose). -/
theorem handleFree_erase (f : FreeIn) (st : Tracker) (an : Analysis) :
    (eraseTracker (handleFree f st an).1, eraseAnalysis (handleFree f st an).2) =
      handleFree f (eraseTracker st) (eraseAnalysis an) := by
  rw [handleFree, handleFree]
  by_cases hv : f.var = ""
  · rw [if_pos hv, if_pos hv]
  · rw [if_neg hv, if_neg hv]
    by_cases hHas : mapHas st.allocations f.var
    · rcases hLa : (mapGet st.allocations f.var).getLast? with _ | freed
      · simp only [eraseTracker, eraseAnalysis, mapHas_eraseMap, hHas,
          Bool.not_true, Bool.false_eq_true, if_false, mapGet_eraseMap,
          getLast?_map_eraseA, hLa, Option.map_none']
      · simp only [eraseTracker, eraseAnalysis, mapHas_eraseMap, hHas,
          Bool.not_true, Bool.false_eq_true, if_false, mapGet_eraseMap,
          getLast?_map_eraseA, hLa, Option.map_some', dropLast_map_eraseA,
          mapSet_eraseMap, isEmpty_map_eraseA, eraseA_size, eraseA_allocId]
        split
        · simp [mapDelete_eraseMap]
        · simp
    · have hHas' : mapHas st.allocations f.var = false := by
        simpa using hHas
      simp only [eraseTracker, eraseAnalysis, mapHas_eraseMap, hHas',
        Bool.not_false, if_true]

/-- `handleFree` reads only `var`, `line` and `lineText` of its free
object (the `language` and `isArray` fields are never consulted). -/
theorem handleFree_congr (f g : FreeIn) (st : Tracker) (an : Analysis)
    (hv : f.var = g.var) (hl : f.line = g.line) (ht : f.lineText = g.lineText) :
    handleFree f st an = handleFree g st an := by
  rw [handleFree, handleFree, hv, hl, ht]

theorem updateTimeline_erase (st : Tracker) (n : Nat) :
    eraseTracker (updateTimeline st n) = updateTimeline (eraseTracker st) n := by
  simp [updateTimeline, eraseTracker, eraseT]

/-- The erasure of an allocation object is language-independent: the
language only feeds the `size` estimate and the `language` tag. -/
theorem processASTAllocation_erase (lang lang' : String) (stamp : Nat) (code : String)
    (node : CNode) :
    eraseA (processASTAllocation lang stamp code node) =
      eraseA (processASTAllocation lang' stamp code node) := rfl

theorem processNode_erase (lang lang' : String) (stamp : Nat) (code : String)
    (p q : Tracker × Analysis) (node : CNode)
    (h1 : eraseTracker p.1 = eraseTracker q.1)
    (h2 : eraseAnalysis p.2 = eraseAnalysis q.2) :
    eraseTracker (processNode lang stamp code p node).1 =
      eraseTracker (processNode lang' stamp code q node).1 ∧
    eraseAnalysis (processNode lang stamp code p node).2 =
      eraseAnalysis (processNode lang' stamp code q node).2 := by
  simp only [processNode]
  cases node.kind with
  | alloc =>
    have hA := handleAllocation_erase (processASTAllocation lang stamp code node) p.1 p.2
    have hB := handleAllocation_erase (processASTAllocation lang' stamp code node) q.1 q.2
    have heq : handleAllocation (eraseA (processASTAllocation lang stamp code node))
        (eraseTracker p.1) (eraseAnalysis p.2) =
        handleAllocation (eraseA (processASTAllocation lang' stamp code node))
        (eraseTracker q.1) (eraseAnalysis q.2) := by
      rw [processASTAllocation_erase lang lang', h1, h2]
    have hQ := hA.trans (heq.trans hB.symm)
    constructor
    · rw [updateTimeline_erase, updateTimeline_erase]
      have h1' := congrArg Prod.fst hQ
      simp only at h1'
      rw [h1']
    · have h2' := congrArg Prod.snd hQ
      simpa using h2'
  | dealloc =>
    have hA := handleFree_erase (processASTDeallocation lang code node) p.1 p.2
    have hB := handleFree_erase (processASTDeallocation lang' code node) q.1 q.2
    have heq : handleFree (processASTDeallocation lang code node)
        (eraseTracker p.1) (eraseAnalysis p.2) =
        handleFree (processASTDeallocation lang' code node)
        (eraseTracker q.1) (eraseAnalysis q.2) := by
      rw [h1, h2]
      exact handleFree_congr _ _ _ _ rfl rfl rfl
    have hQ := hA.trans (heq.trans hB.symm)
    constructor
    · rw [updateTimeline_erase, updateTimeline_erase]
      have h1' := congrArg Prod.fst hQ
      simp only at h1'
      rw [h1']
    · have h2' := congrArg Prod.snd hQ
      simpa using h2'

theorem processNodes_erase (lang lang' : String) (stamp : Nat) (code : String)
    (nodes : List CNode) :
    ∀ (p q : Tracker × Analysis), eraseTracker p.1 = eraseTracker q.1 →
      eraseAnalysis p.2 = eraseAnalysis q.2 →
      eraseTracker (processNodes lang stamp code nodes p).1 =
        eraseTracker (processNodes lang' stamp code nodes q).1 ∧
      eraseAnalysis (processNodes lang stamp code nodes p).2 =
        eraseAnalysis (processNodes lang' stamp code nodes q).2 := by
  induction nodes with
  | nil => exact fun p q h1 h2 => ⟨h1, h2⟩
  | cons n rest ih =>
    intro p q h1 h2
    have hstep := processNode_erase lang lang' stamp code p q n h1 h2
    exact ih _ _ hstep.1 hstep.2

theorem detectCodeQualityIssues_erase (l : String) (n : Nat) (o : String)
    (an : Analysis) :
    eraseAnalysis (detectCodeQualityIssues l n o an) =
      detectCodeQualityIssues l n o (eraseAnalysis an) := by
  rw [detectCodeQualityIssues, detectCodeQualityIssues]
  split_ifs <;> simp [eraseAnalysis]

theorem qualityPass_fold_erase (lines : List (List Char)) :
    ∀ (an : Analysis) (n : Nat),
      eraseAnalysis ((lines.foldl
        (fun (q : Analysis × Nat) line =>
          (detectCodeQualityIssues line.asString q.2 line.asString q.1, q.2 + 1))
        (an, n)).1) =
      ((lines.foldl
        (fun (q : Analysis × Nat) line =>
          (detectCodeQualityIssues line.asString q.2 line.asString q.1, q.2 + 1))
        (eraseAnalysis an, n)).1) := by
  induction lines with
  | nil => exact fun an n => rfl
  | cons l rest ih =>
    intro an n
    simp only [List.foldl_cons]
    rw [← detectCodeQualityIssues_erase]
    exact ih _ _

theorem qualityPass_erase (code : String) (an : Analysis) :
    eraseAnalysis (qualityPass code an) = qualityPass code (eraseAnalysis an) := by
  rw [qualityPass, qualityPass]
  exact qualityPass_fold_erase _ an 1

theorem leakRow_erase (v : String) (l : List AllocRec) :
    (l.map (fun a => ({ var := (if v = "" then "unknown" else v), line := a.line,
                        fn := a.fn, size := a.size, inLoop := a.inLoop,
                        fix := leakFix v a } : LeakRec))).map eraseL =
    (l.map eraseA).map (fun a =>
      ({ var := (if v = "" then "unknown" else v), line := a.line,
         fn := a.fn, size := a.size, inLoop := a.inLoop,
         fix := leakFix v a } : LeakRec)) := by
  induction l with
  | nil => rfl
  | cons a l ih =>
    simp only [List.map_cons, ih, List.cons.injEq, and_true]
    simp [eraseL, eraseA, leakFix]

theorem findLeaks_erase (st : Tracker) (an : Analysis) :
    eraseAnalysis (findLeaks st an) = findLeaks (eraseTracker st) (eraseAnalysis an) := by
  rw [findLeaks, findLeaks]
  simp only [eraseAnalysis, eraseTracker, List.map_append, Analysis.mk.injEq,
    true_and, and_true, eq_self_iff_true]
  congr 1
  induction st.allocations with
  | nil => rfl
  | cons p rest ih =>
    obtain ⟨v, l⟩ := p
    simp only [eraseMap, List.map_cons, List.flatten_cons, List.map_append] at ih ⊢
    rw [ih, leakRow_erase]

theorem runAnalysis_erase (lang lang' code : String) (stamp : Nat) :
    eraseAnalysis (runAnalysis lang code stamp).1 =
      eraseAnalysis (runAnalysis lang' code stamp).1 := by
  simp only [runAnalysis, astParse_eq_parseC]
  have hP := processNodes_erase lang lang' stamp code (parseC (removeComments code.data))
      (initTracker, initAnalysis) (initTracker, initAnalysis) rfl rfl
  rw [findLeaks_erase, findLeaks_erase, qualityPass_erase, qualityPass_erase,
    hP.1, hP.2]

/-- For a language string outside the recognized enum, every branch of
`calculateSizeFromAST` falls through to the final `return 1`. -/
theorem calculateSizeFromAST_unrecognized (lang fn args : String)
    (h1 : lang ≠ "c") (h2 : lang ≠ "cpp") (h3 : lang ≠ "javascript")
    (h4 : lang ≠ "python") (h5 : lang ≠ "java") (h6 : lang ≠ "rust")
    (h7 : lang ≠ "go") :
    calculateSizeFromAST lang fn args = 1 := by
  rw [calculateSizeFromAST]
  simp [h1, h2, h3, h4, h5, h6, h7]

theorem handleAllocation_analysis_allocations (a : AllocRec) (st : Tracker)
    (an : Analysis) :
    (handleAllocation a st an).2.allocations = an.allocations ∨
    (handleAllocation a st an).2.allocations = an.allocations ++ [a] := by
  rw [handleAllocation]
  by_cases hv : a.var = ""
  · rw [if_pos hv]
    exact Or.inl rfl
  · rw [if_neg hv]
    by_cases hHas : mapHas st.allocations a.var
    · rcases hLa : (mapGet st.allocations a.var).getLast? with _ | lastA
      · refine Or.inr ?_
        simp only [hHas, eq_self_iff_true, if_true, hLa]
      · refine Or.inr ?_
        simp only [hHas, eq_self_iff_true, if_true, hLa]
    · have hHas' : mapHas st.allocations a.var = false := by
        simpa using hHas
      refine Or.inr ?_
      simp only [hHas', Bool.false_eq_true, if_false]

theorem handleFree_analysis_allocations (f : FreeIn) (st : Tracker) (an : Analysis) :
    (handleFree f st an).2.allocations = an.allocations := by
  rw [handleFree]
  by_cases hv : f.var = ""
  · rw [if_pos hv]
  · rw [if_neg hv]
    by_cases hHas : mapHas st.allocations f.var
    · rcases hLa : (mapGet st.allocations f.var).getLast? with _ | freed
      · simp only [hHas, Bool.not_true, Bool.false_eq_true, if_false, hLa]
      · simp only [hHas, Bool.not_true, Bool.false_eq_true, if_false, hLa]
        split <;> rfl
    · have hHas' : mapHas st.allocations f.var = false := by
        simpa using hHas
      simp only [hHas', Bool.not_false, if_true]

theorem processNodes_sizesOne (lang : String) (stamp : Nat) (code : String)
    (hsize : ∀ node : CNode, calculateSizeFromAST lang node.fn node.args = 1)
    (nodes : List CNode) :
    ∀ p : Tracker × Analysis, SizesOne p.2 →
      SizesOne (processNodes lang stamp code nodes p).2 := by
  induction nodes with
  | nil => exact fun p h => h
  | cons n rest ih =>
    intro p h
    apply ih
    show SizesOne (processNode lang stamp code p n).2
    rw [processNode]
    cases n.kind with
    | alloc =>
      rcases handleAllocation_analysis_allocations
          (processASTAllocation lang stamp code n) p.1 p.2 with hEq | hEq
      · intro b hb
        rw [hEq] at hb
        exact h b hb
      · intro b hb
        rw [hEq] at hb
        rcases List.mem_append.mp hb with hb' | hb'
        · exact h b hb'
        · rw [List.mem_singleton.mp hb']
          exact hsize n
    | dealloc =>
      intro b hb
      rw [handleFree_analysis_allocations] at hb
      exact h b hb

theorem detectCodeQualityIssues_allocations (l : String) (n : Nat) (o : String)
    (an : Analysis) :
    (detectCodeQualityIssues l n o an).allocations = an.allocations := by
  rw [detectCodeQualityIssues]
  split_ifs <;> rfl

theorem qualityPass_fold_allocations (lines : List (List Char)) :
    ∀ (an : Analysis) (n : Nat),
      ((lines.foldl
        (fun (q : Analysis × Nat) line =>
          (detectCodeQualityIssues line.asString q.2 line.asString q.1, q.2 + 1))
        (an, n)).1).allocations = an.allocations := by
  induction lines with
  | nil => exact fun an n => rfl
  | cons l rest ih =>
    intro an n
    simp only [List.foldl_cons]
    rw [ih, detectCodeQualityIssues_allocations]

theorem qualityPass_allocations (code : String) (an : Analysis) :
    (qualityPass code an).allocations = an.allocations := by
  rw [qualityPass]
  exact qualityPass_fold_allocations _ an 1

theorem findLeaks_allocations (st : Tracker) (an : Analysis) :
    (findLeaks st an).allocations = an.allocations := rfl

/-- C8 counterexample: under the unrecognized language `"html"` the
allocation of `"int *p = malloc(10);"` is recorded with size 1,
whereas under `"c"` it is recorded with size 10 — with the same
disambiguator the two results differ even though the ids coincide. -/
theorem unknown_language_same_result_false :
    ((runAnalysis "html" "int *p = malloc(10);" 0).1.allocations.map AllocRec.size =
      [1]) ∧
    ((runAnalysis "c" "int *p = malloc(10);" 0).1.allocations.map AllocRec.size =
      [10]) ∧
    (runAnalysis "html" "int *p = malloc(10);" 0).1 ≠
      (runAnalysis "c" "int *p = malloc(10);" 0).1 := by
  refine ⟨rfl, rfl, by decide⟩

/-- C8 amended: an unrecognized language value yields exactly the same
extracted events as `"c"` (both take the generic line-scanning path),
and the analysis results agree after erasing the size-derived data
(allocation sizes, leak sizes, timeline memory values, the running
memory counter and the language tag) — in particular the frees, the
warnings and the counts of all five sequences coincide; but every
allocation size is the fallback 1 instead of c's estimate, so the full
result objects may differ. -/
theorem unrecognized_language_vs_c (lang code : String) (stamp : Nat)
    (h1 : lang ≠ "c") (h2 : lang ≠ "cpp") (h3 : lang ≠ "javascript")
    (h4 : lang ≠ "python") (h5 : lang ≠ "java") (h6 : lang ≠ "rust")
    (h7 : lang ≠ "go") :
    astParse lang code = astParse "c" code ∧
    eraseAnalysis (runAnalysis lang code stamp).1 =
      eraseAnalysis (runAnalysis "c" code stamp).1 ∧
    ((runAnalysis lang code stamp).1.allocations.all (fun a => a.size == 1)) = true := by
  refine ⟨(astParse_eq_parseC lang code).trans (astParse_eq_parseC "c" code).symm,
    runAnalysis_erase lang "c" code stamp, ?_⟩
  rw [List.all_eq_true]
  have hall : (runAnalysis lang code stamp).1.allocations =
      (processNodes lang stamp code (astParse lang code)
        (initTracker, initAnalysis)).2.allocations := by
    simp only [runAnalysis, findLeaks_allocations, qualityPass_allocations]
  have hs : SizesOne (processNodes lang stamp code (astParse lang code)
      (initTracker, initAnalysis)).2 :=
    processNodes_sizesOne lang stamp code
      (fun node => calculateSizeFromAST_unrecognized lang node.fn node.args
        h1 h2 h3 h4 h5 h6 h7)
      (astParse lang code) (initTracker, initAnalysis)
      (by intro b hb; simp [initAnalysis] at hb)
  intro a ha
  rw [hall] at ha
  simpa using hs a ha

theorem unrecognized_language_vs_c_witness :
    astParse "html" "int *p = malloc(10);" = astParse "c" "int *p = malloc(10);" ∧
    eraseAnalysis (runAnalysis "html" "int *p = malloc(10);" 0).1 =
      eraseAnalysis (runAnalysis "c" "int *p = malloc(10);" 0).1 ∧
    ((runAnalysis "html" "int *p = malloc(10);" 0).1.allocations.all
      (fun a => a.size == 1)) = true :=
  unrecognized_language_vs_c "html" "int *p = malloc(10);" 0 (by decide) (by decide)
    (by decide) (by decide) (by decide) (by decide) (by decide)

end MLD
